import Mathlib

/-!
Verification of the dynamic-fee transaction data model of
`x/evm/types/dynamic_fee_tx.go` and of the statedb transaction context
(`TxConfig`).  The transaction struct, its constructor from the external
transaction object, its accessors, signature handling, validation and
fee arithmetic are embedded as pure Lean functions; external
collaborators (arbitrary-precision integers, hex addresses, the access
list container) are modelled from the specification's description of
their capabilities.
-/

namespace Ethermint

/-- Byte sequences (Go []byte values) are modelled as lists of naturals. -/
abbrev Bytes := List Nat

/-- Modelled from the spec: big-endian minimal byte encoding of a natural
number, as produced by the external arbitrary-precision integer type
(big.Int.Bytes); zero encodes as the empty sequence. -/
def natToBEBytes (n : Nat) : Bytes := (Nat.digits 256 n).reverse

/-- Modelled from the spec: big-endian byte decoding into a natural number
(big.Int.SetBytes). -/
def beBytesToNat (l : Bytes) : Nat := Nat.ofDigits 256 l.reverse

/-- Modelled from the spec: byte encoding of an arbitrary-precision
integer; the encoding is of the absolute value (stored signature scalars
are non-negative). -/
def bigIntBytes (x : Int) : Bytes := natToBEBytes x.natAbs

/-- Modelled from the spec: arbitrary-precision integer decoded from
big-endian bytes. -/
def bigIntSetBytes (l : Bytes) : Int := (beBytesToNat l : Int)

theorem beBytesToNat_natToBEBytes (n : Nat) : beBytesToNat (natToBEBytes n) = n := by
  simp [beBytesToNat, natToBEBytes, Nat.ofDigits_digits]

theorem natToBEBytes_eq_nil_iff {n : Nat} : natToBEBytes n = [] ↔ n = 0 := by
  simp [natToBEBytes, Nat.digits_eq_nil_iff_eq_zero]

theorem bigIntBytes_bigIntSetBytes_bigIntBytes (x : Int) :
    bigIntBytes (bigIntSetBytes (bigIntBytes x)) = bigIntBytes x := by
  simp [bigIntBytes, bigIntSetBytes, beBytesToNat_natToBEBytes, Int.natAbs_abs]

/-- Modelled from the spec: lower-case hexadecimal digit characters
(Nat.digitChar agrees with the external encoding on values below 16). -/
def hexDigitChar (d : Nat) : Char := Nat.digitChar d

/-- Modelled from the spec: numeric value of a hexadecimal character, case
insensitive; none when the character is not a hex digit. -/
def hexCharVal (c : Char) : Option Nat :=
  if 48 ≤ c.toNat ∧ c.toNat ≤ 57 then some (c.toNat - 48)
  else if 97 ≤ c.toNat ∧ c.toNat ≤ 102 then some (c.toNat - 97 + 10)
  else if 65 ≤ c.toNat ∧ c.toNat ≤ 70 then some (c.toNat - 65 + 10)
  else none

/-- Modelled from the spec: hex-digit test on one character. -/
def isHexChar (c : Char) : Bool := (hexCharVal c).isSome

/-- Modelled from the spec: a leading 0x or 0X marker is stripped before
hex processing. -/
def dropHexMarker : List Char → List Char
  | '0' :: 'x' :: rest => rest
  | '0' :: 'X' :: rest => rest
  | l => l

/-- Modelled from the spec: greedy hexadecimal parse, accumulating digits
until the first character that is not a hex digit (the external decoder
truncates at malformed input instead of failing). -/
def parseHexAcc : List Char → Nat → Nat
  | [], acc => acc
  | c :: cs, acc =>
    match hexCharVal c with
    | some d => parseHexAcc cs (acc * 16 + d)
    | none => acc

/-- Ethereum addresses (20 bytes) are modelled by their 160-bit value. -/
abbrev EthAddress := Fin (2 ^ 160)

/-- Modelled from the spec: total hex coercion of a string to an address
(common.HexToAddress); it never fails, malformed input is coerced. -/
def hexToAddress (s : String) : EthAddress :=
  ⟨parseHexAcc (dropHexMarker s.data) 0 % 2 ^ 160, Nat.mod_lt _ (by norm_num)⟩

/-- Modelled from the spec: fixed-width big-endian hex digit rendering. -/
def natToHexFixed (w n : Nat) : List Char :=
  ((Nat.digits 16 n ++ List.replicate (w - (Nat.digits 16 n).length) 0).reverse).map hexDigitChar

/-- Modelled from the spec: the hex textual form of an address
(Address.Hex), a 0x marker followed by 40 hex digits; modelled in lower
case (the external form mixes case for checksumming, which parsing
ignores). -/
def addressToHex (a : EthAddress) : String :=
  ⟨'0' :: 'x' :: natToHexFixed 40 a.val⟩

/-- Modelled from the spec: the address-syntax validator capability; a
string passes when, after an optional 0x marker, it is exactly 40 hex
characters (common.IsHexAddress). -/
def isHexAddress (s : String) : Bool :=
  (dropHexMarker s.data).length == 40 && (dropHexMarker s.data).all isHexChar

theorem hexCharVal_hexDigitChar : ∀ d, d < 16 → hexCharVal (hexDigitChar d) = some d := by
  decide

theorem parseHexAcc_map (ds : List Nat) (h : ∀ d ∈ ds, d < 16) (acc : Nat) :
    parseHexAcc (ds.map hexDigitChar) acc = ds.foldl (fun a d => a * 16 + d) acc := by
  induction ds generalizing acc with
  | nil => rfl
  | cons d ds ih =>
    have hd : d < 16 := h d (List.mem_cons_self d ds)
    simp only [List.map_cons, parseHexAcc, hexCharVal_hexDigitChar d hd, List.foldl_cons]
    exact ih (fun x hx => h x (List.mem_cons_of_mem d hx)) _

theorem foldl_hex_step (l : List Nat) (acc : Nat) :
    l.foldl (fun a d => a * 16 + d) acc = acc * 16 ^ l.length + Nat.ofDigits 16 l.reverse := by
  induction l generalizing acc with
  | nil => simp [Nat.ofDigits]
  | cons d l ih =>
    simp only [List.foldl_cons, List.reverse_cons, List.length_cons]
    rw [ih, Nat.ofDigits_append]
    simp only [List.length_reverse]
    have hd : Nat.ofDigits 16 [d] = d := by simp [Nat.ofDigits]
    rw [hd]
    ring

theorem ofDigits_replicate_zero (k : Nat) : Nat.ofDigits 16 (List.replicate k 0) = 0 := by
  induction k with
  | zero => rfl
  | succ k ih => simp [List.replicate_succ, Nat.ofDigits, ih]

theorem hexToAddress_addressToHex (a : EthAddress) : hexToAddress (addressToHex a) = a := by
  have hds : ∀ d ∈ (Nat.digits 16 a.val ++
      List.replicate (40 - (Nat.digits 16 a.val).length) 0).reverse, d < 16 := by
    intro d hd
    rw [List.mem_reverse] at hd
    rcases List.mem_append.mp hd with h | h
    · exact Nat.digits_lt_base (by norm_num) h
    · have h0 := List.eq_of_mem_replicate h
      omega
  apply Fin.ext
  show parseHexAcc (dropHexMarker ('0' :: 'x' :: natToHexFixed 40 a.val)) 0 % 2 ^ 160 = a.val
  have hdrop : dropHexMarker ('0' :: 'x' :: natToHexFixed 40 a.val) = natToHexFixed 40 a.val := rfl
  rw [hdrop]
  unfold natToHexFixed
  rw [parseHexAcc_map _ hds, foldl_hex_step]
  simp only [List.reverse_reverse, Nat.ofDigits_append, Nat.ofDigits_digits,
    ofDigits_replicate_zero, Nat.zero_mul, Nat.mul_zero, Nat.add_zero, Nat.zero_add]
  exact Nat.mod_eq_of_lt a.isLt

theorem addressToHex_ne_empty (a : EthAddress) : addressToHex a ≠ "" := by
  intro h
  have hdata : ('0' :: 'x' :: natToHexFixed 40 a.val) = [] := congrArg String.data h
  simp at hdata

/-- Modelled from the spec: one entry of the access list, an address and
the set of storage keys the transaction intends to touch; the container
is consumed as an opaque convertible type. -/
structure AccessTuple where
  address : String
  storageKeys : List Nat
deriving DecidableEq

/-- Ordered access list. -/
abbrev AccessList := List AccessTuple

/-- Modelled from the spec: conversion of the external access list to the
ledger representation (NewAccessList on a present list); opaque,
mutually inverse with accessListToEth. -/
def accessListFromEth (al : AccessList) : AccessList := al

/-- Modelled from the spec: conversion back to the external representation
(ToEthAccessList). -/
def accessListToEth (al : AccessList) : AccessList := al

/-- The DynamicFeeTx struct of dynamic_fee_tx.go.  Optional
arbitrary-precision integer fields (pointers to sdk.Int) are modelled as
Option Int; byte sequences as Bytes; the nilable access list slice as
Option AccessList.  The default values are the Go zero values used by
struct literals that omit fields. -/
structure DynamicFeeTx where
  ChainID : Option Int := none
  Nonce : Nat := 0
  GasTipCap : Option Int := none
  GasFeeCap : Option Int := none
  GasLimit : Nat := 0
  To : String := ""
  Amount : Option Int := none
  Data : Bytes := []
  Accesses : Option AccessList := none
  V : Bytes := []
  R : Bytes := []
  S : Bytes := []
deriving DecidableEq

/-- Modelled from the spec: the external decoded transaction object
(ethtypes.Transaction), exposing accessors for nonce, payload, gas
limit, optional recipient, optional value, optional fee and tip caps,
optional access list, chain ID and the raw signature triple. -/
structure EthTx where
  nonce : Nat
  data : Bytes
  gas : Nat
  toAddr : Option EthAddress
  value : Option Int
  gasFeeCap : Option Int
  gasTipCap : Option Int
  accessList : Option AccessList
  chainId : Option Int
  v : Option Int
  r : Option Int
  s : Option Int
deriving DecidableEq

/-- SetSignatureValues sets the signature values to the transaction
(each field is written only when the corresponding argument is non-nil;
a written ChainID goes through sdk.NewIntFromBigInt, a written signature
scalar is stored as its bytes). -/
def DynamicFeeTx.SetSignatureValues (tx : DynamicFeeTx) (chainID v r s : Option Int) :
    DynamicFeeTx :=
  let tx1 := match v with
    | some x => { tx with V := bigIntBytes x }
    | none => tx
  let tx2 := match r with
    | some x => { tx1 with R := bigIntBytes x }
    | none => tx1
  let tx3 := match s with
    | some x => { tx2 with S := bigIntBytes x }
    | none => tx2
  match chainID with
  | some x => { tx3 with ChainID := some x }
  | none => tx3

/-- newDynamicFeeTx builds a DynamicFeeTx from the external transaction
object, populating each optional field only when the corresponding
accessor returns non-nil, and installing the signature through
SetSignatureValues. -/
def newDynamicFeeTx (tx : EthTx) : DynamicFeeTx :=
  let txData : DynamicFeeTx := { Nonce := tx.nonce, Data := tx.data, GasLimit := tx.gas }
  let txData1 := match tx.toAddr with
    | some a => { txData with To := addressToHex a }
    | none => txData
  let txData2 := match tx.value with
    | some x => { txData1 with Amount := some x }
    | none => txData1
  let txData3 := match tx.gasFeeCap with
    | some x => { txData2 with GasFeeCap := some x }
    | none => txData2
  let txData4 := match tx.gasTipCap with
    | some x => { txData3 with GasTipCap := some x }
    | none => txData3
  let txData5 := match tx.accessList with
    | some al => { txData4 with Accesses := some (accessListFromEth al) }
    | none => txData4
  txData5.SetSignatureValues tx.chainId tx.v tx.r tx.s

/-- TxType returns the tx type (the fixed DynamicFeeTxType identifier 2). -/
def DynamicFeeTx.TxType (_ : DynamicFeeTx) : Nat := 2

/-- GetChainID returns the chain id field from the DynamicFeeTx. -/
def DynamicFeeTx.GetChainID (tx : DynamicFeeTx) : Option Int :=
  match tx.ChainID with
  | none => none
  | some x => some x

/-- GetAccessList returns the AccessList field. -/
def DynamicFeeTx.GetAccessList (tx : DynamicFeeTx) : Option AccessList :=
  match tx.Accesses with
  | none => none
  | some al => some (accessListToEth al)

/-- GetData returns a copy of the input data bytes. -/
def DynamicFeeTx.GetData (tx : DynamicFeeTx) : Bytes := tx.Data

/-- GetGas returns the gas limit. -/
def DynamicFeeTx.GetGas (tx : DynamicFeeTx) : Nat := tx.GasLimit

/-- GetGasFeeCap returns the gas fee cap field. -/
def DynamicFeeTx.GetGasFeeCap (tx : DynamicFeeTx) : Option Int :=
  match tx.GasFeeCap with
  | none => none
  | some x => some x

/-- GetGasPrice returns the gas fee cap field. -/
def DynamicFeeTx.GetGasPrice (tx : DynamicFeeTx) : Option Int := tx.GetGasFeeCap

/-- GetGasTipCap returns the gas tip cap field. -/
def DynamicFeeTx.GetGasTipCap (tx : DynamicFeeTx) : Option Int :=
  match tx.GasTipCap with
  | none => none
  | some x => some x

/-- GetValue returns the tx amount. -/
def DynamicFeeTx.GetValue (tx : DynamicFeeTx) : Option Int :=
  match tx.Amount with
  | none => none
  | some x => some x

/-- GetNonce returns the account sequence for the transaction. -/
def DynamicFeeTx.GetNonce (tx : DynamicFeeTx) : Nat := tx.Nonce

/-- GetTo returns the recipient address, none for an empty To string. -/
def DynamicFeeTx.GetTo (tx : DynamicFeeTx) : Option EthAddress :=
  if tx.To = "" then none else some (hexToAddress tx.To)

/-- Modelled from the spec: rawSignatureValues parses the three stored
byte sequences back into arbitrary-precision integers, nil when the byte
sequence is empty. -/
def rawSignatureValues (vBz rBz sBz : Bytes) : Option Int × Option Int × Option Int :=
  ( if 0 < vBz.length then some (bigIntSetBytes vBz) else none
  , if 0 < rBz.length then some (bigIntSetBytes rBz) else none
  , if 0 < sBz.length then some (bigIntSetBytes sBz) else none )

/-- GetRawSignatureValues returns the V, R, S signature values of the
transaction. -/
def DynamicFeeTx.GetRawSignatureValues (tx : DynamicFeeTx) :
    Option Int × Option Int × Option Int :=
  rawSignatureValues tx.V tx.R tx.S

/-- AsEthereumData returns the external transaction-object representation
of the DynamicFeeTx. -/
def DynamicFeeTx.AsEthereumData (tx : DynamicFeeTx) : EthTx :=
  { chainId := tx.GetChainID
    nonce := tx.GetNonce
    gasTipCap := tx.GetGasTipCap
    gasFeeCap := tx.GetGasFeeCap
    gas := tx.GetGas
    toAddr := tx.GetTo
    value := tx.GetValue
    data := tx.GetData
    accessList := tx.GetAccessList
    v := tx.GetRawSignatureValues.1
    r := tx.GetRawSignatureValues.2.1
    s := tx.GetRawSignatureValues.2.2 }

/-- Validation failure categories of the error taxonomy. -/
inductive ValidationError where
  | invalidGasPrice
  | invalidAmount
  | invalidAddress
  | invalidChainID
deriving DecidableEq

/-- Modelled from the spec: the address-syntax validator capability
(types.ValidateAddress): error when the string is not a valid hex
address. -/
def ValidateAddress (address : String) : Option ValidationError :=
  if isHexAddress address then none else some ValidationError.invalidAddress

/-- Validate performs a stateless validation of the tx fields, in source
order with the first failure winning; none means success. -/
def DynamicFeeTx.Validate (tx : DynamicFeeTx) : Option ValidationError :=
  match tx.GetGasPrice with
  | none => some ValidationError.invalidGasPrice
  | some gasPrice =>
    if gasPrice.sign = -1 then some ValidationError.invalidGasPrice
    else if (match tx.GetValue with
      | some amount => amount.sign == -1
      | none => false) then some ValidationError.invalidAmount
    else if tx.To ≠ "" ∧ (ValidateAddress tx.To).isSome then
      some ValidationError.invalidAddress
    else if tx.GetChainID = none then some ValidationError.invalidChainID
    else none

/-- Modelled from the spec: fee computes gasPrice times gasLimit in the
unbounded integer domain; a nil gas price has no defined fee (the
external multiply is partially defined on nil), modelled as none. -/
def feeCalc (gasPrice : Option Int) (gas : Nat) : Option Int :=
  gasPrice.map (fun p => p * (gas : Int))

/-- Modelled from the spec: cost adds the value to the fee, the value
treated as zero when absent. -/
def costCalc (fe : Option Int) (value : Option Int) : Option Int :=
  match value with
  | some v => fe.map (fun f => f + v)
  | none => fe

/-- Fee returns gasprice times gaslimit. -/
def DynamicFeeTx.Fee (tx : DynamicFeeTx) : Option Int :=
  feeCalc tx.GetGasPrice tx.GetGas

/-- Cost returns amount plus gasprice times gaslimit. -/
def DynamicFeeTx.Cost (tx : DynamicFeeTx) : Option Int :=
  costCalc tx.Fee tx.GetValue

/-- Copy returns an instance with the same field values, with the byte
sequence fields (Data, V, R, S) copied into fresh backing storage
(common.CopyBytes); the heap-level model below makes the fresh
allocation observable. -/
def DynamicFeeTx.Copy (tx : DynamicFeeTx) : DynamicFeeTx :=
  { ChainID := tx.ChainID
    Nonce := tx.Nonce
    GasTipCap := tx.GasTipCap
    GasFeeCap := tx.GasFeeCap
    GasLimit := tx.GasLimit
    To := tx.To
    Amount := tx.Amount
    Data := tx.Data
    Accesses := tx.Accesses
    V := tx.V
    R := tx.R
    S := tx.S }

/-- The 32-byte block and transaction hashes (common.Hash) are modelled
by their 256-bit numeric value; the all-zero hash is 0. -/
abbrev EthHash := Nat

/-- TxConfig encapsulates the readonly information of the current tx for
the StateDB. -/
structure TxConfig where
  BlockHash : EthHash
  TxHash : EthHash
  TxIndex : Nat
  LogIndex : Nat
deriving DecidableEq

/-- NewTxConfig stores all four components verbatim. -/
def NewTxConfig (bhash thash : EthHash) (txIndex logIndex : Nat) : TxConfig :=
  { BlockHash := bhash
    TxHash := thash
    TxIndex := txIndex
    LogIndex := logIndex }

/-- NewEmptyTxConfig constructs an empty TxConfig used in contexts where
there is no transaction: zero tx hash, zero indices. -/
def NewEmptyTxConfig (bhash : EthHash) : TxConfig :=
  { BlockHash := bhash
    TxHash := 0
    TxIndex := 0
    LogIndex := 0 }

theorem SetSignatureValues_eq (tx : DynamicFeeTx) (chainID v r s : Option Int) :
    tx.SetSignatureValues chainID v r s =
      { tx with
        V := v.elim tx.V bigIntBytes
        R := r.elim tx.R bigIntBytes
        S := s.elim tx.S bigIntBytes
        ChainID := chainID.elim tx.ChainID some } := by
  cases v <;> cases r <;> cases s <;> cases chainID <;> rfl

theorem newDynamicFeeTx_eq (e : EthTx) :
    newDynamicFeeTx e =
      { Nonce := e.nonce
        Data := e.data
        GasLimit := e.gas
        To := e.toAddr.elim "" addressToHex
        Amount := e.value
        GasFeeCap := e.gasFeeCap
        GasTipCap := e.gasTipCap
        Accesses := e.accessList.map accessListFromEth
        ChainID := e.chainId
        V := e.v.elim [] bigIntBytes
        R := e.r.elim [] bigIntBytes
        S := e.s.elim [] bigIntBytes } := by
  obtain ⟨n, d, g, ta, val, fc, tc, al, cid, v, r, s⟩ := e
  cases ta <;> cases val <;> cases fc <;> cases tc <;> cases al <;> cases cid <;>
    cases v <;> cases r <;> cases s <;> rfl

/-- Spec-side restatement of the five validation rules, written from the
specification's words: nil gas price, negative gas price, negative
present amount, malformed non-empty recipient, missing chain ID, in this
order with the first failure winning. -/
def validateSpec (tx : DynamicFeeTx) : Option ValidationError :=
  if tx.GetGasPrice.isNone then some ValidationError.invalidGasPrice
  else if tx.GetGasPrice.elim false (fun p => decide (p < 0)) then
    some ValidationError.invalidGasPrice
  else if tx.GetValue.elim false (fun a => decide (a < 0)) then
    some ValidationError.invalidAmount
  else if tx.To ≠ "" ∧ ¬ ValidateAddress tx.To = none then
    some ValidationError.invalidAddress
  else if tx.GetChainID.isNone then some ValidationError.invalidChainID
  else none

theorem Validate_eq_validateSpec (tx : DynamicFeeTx) : tx.Validate = validateSpec tx := by
  unfold DynamicFeeTx.Validate validateSpec DynamicFeeTx.GetGasPrice
    DynamicFeeTx.GetGasFeeCap DynamicFeeTx.GetValue DynamicFeeTx.GetChainID
  rcases hfc : tx.GasFeeCap with _ | p
  · rfl
  · rcases ha : tx.Amount with _ | a <;> rcases hc : tx.ChainID with _ | c <;>
      by_cases hto : tx.To = "" <;>
      simp [hto, Int.sign_eq_neg_one_iff_neg, beq_iff_eq] <;>
      split_ifs <;> simp_all

theorem Validate_none_iff (tx : DynamicFeeTx) :
    tx.Validate = none ↔
      tx.GetGasPrice ≠ none ∧ (∀ p, tx.GetGasPrice = some p → 0 ≤ p) ∧
      (∀ a, tx.GetValue = some a → 0 ≤ a) ∧
      (tx.To ≠ "" → ValidateAddress tx.To = none) ∧
      tx.GetChainID ≠ none := by
  rw [Validate_eq_validateSpec]
  unfold validateSpec DynamicFeeTx.GetGasPrice DynamicFeeTx.GetGasFeeCap
    DynamicFeeTx.GetValue DynamicFeeTx.GetChainID
  rcases hfc : tx.GasFeeCap with _ | p
  · simp
  · rcases ha : tx.Amount with _ | a <;> rcases hc : tx.ChainID with _ | c <;>
      by_cases hto : tx.To = "" <;>
      simp [hto] <;> split_ifs <;> simp_all

/-- Heap of byte buffers: a Go []byte value is a reference (an index)
into this arena, which makes the backing storage of the byte-sequence
fields observable for the deep-copy claims. -/
abbrev Heap := List Bytes

/-- readBytes dereferences a buffer; out-of-range reads give the empty
sequence. -/
def Heap.readBytes (h : Heap) (p : Nat) : Bytes := h.getD p []

/-- Modelled from the spec: common.CopyBytes places the content of a
buffer into fresh backing storage and returns the new reference. -/
def Heap.copyBytes (h : Heap) (p : Nat) : Heap × Nat :=
  (h ++ [h.readBytes p], h.length)

/-- writeByte mutates one byte of a buffer in place. -/
def Heap.writeByte (h : Heap) (p i b : Nat) : Heap :=
  h.set p ((h.readBytes p).set i b)

/-- Heap-level view of the DynamicFeeTx struct: the byte-sequence fields
Data, V, R and S hold references into the heap, the remaining fields are
held by value exactly as in DynamicFeeTx. -/
structure DynamicFeeTxRef where
  ChainID : Option Int
  Nonce : Nat
  GasTipCap : Option Int
  GasFeeCap : Option Int
  GasLimit : Nat
  To : String
  Amount : Option Int
  DataRef : Nat
  Accesses : Option AccessList
  VRef : Nat
  RRef : Nat
  SRef : Nat

/-- Copy at the heap level: an instance with the same field values in
which Data, V, R and S are copied into fresh backing storage through
copyBytes, in the evaluation order of the source struct literal. -/
def DynamicFeeTxRef.Copy (tx : DynamicFeeTxRef) (h : Heap) : Heap × DynamicFeeTxRef :=
  let hd := h.copyBytes tx.DataRef
  let hv := hd.1.copyBytes tx.VRef
  let hr := hv.1.copyBytes tx.RRef
  let hs := hr.1.copyBytes tx.SRef
  (hs.1, { tx with DataRef := hd.2, VRef := hv.2, RRef := hr.2, SRef := hs.2 })

theorem readBytes_append_left (h : Heap) (l : List Bytes) (p : Nat) (hp : p < h.length) :
    Heap.readBytes (h ++ l) p = h.readBytes p := by
  unfold Heap.readBytes
  rw [List.getD_eq_getElem?_getD, List.getD_eq_getElem?_getD, List.getElem?_append_left hp]

theorem readBytes_concat (h : Heap) (x : Bytes) :
    Heap.readBytes (h ++ [x]) h.length = x := by
  unfold Heap.readBytes
  rw [List.getD_eq_getElem?_getD, List.getElem?_concat_length]
  rfl

theorem readBytes_writeByte_ne (h : Heap) (p q i b : Nat) (hpq : p ≠ q) :
    (h.writeByte p i b).readBytes q = h.readBytes q := by
  unfold Heap.writeByte Heap.readBytes
  simp only [List.getD_eq_getElem?_getD, List.getElem?_set_ne hpq]

theorem copy_spec (h : Heap) (tx : DynamicFeeTxRef)
    (hd : tx.DataRef < h.length) (hv : tx.VRef < h.length)
    (hr : tx.RRef < h.length) (hs : tx.SRef < h.length) :
    (tx.Copy h).1 =
      h ++ [h.readBytes tx.DataRef] ++ [h.readBytes tx.VRef] ++
        [h.readBytes tx.RRef] ++ [h.readBytes tx.SRef] ∧
    (tx.Copy h).2 = { tx with DataRef := h.length, VRef := h.length + 1,
                              RRef := h.length + 2, SRef := h.length + 3 } := by
  unfold DynamicFeeTxRef.Copy Heap.copyBytes
  have e1 : Heap.readBytes (h ++ [h.readBytes tx.DataRef]) tx.VRef = h.readBytes tx.VRef :=
    readBytes_append_left h _ tx.VRef hv
  have e2 : Heap.readBytes (h ++ [h.readBytes tx.DataRef] ++ [h.readBytes tx.VRef])
      tx.RRef = h.readBytes tx.RRef := by
    rw [readBytes_append_left _ _ tx.RRef (by simp; omega),
      readBytes_append_left h _ tx.RRef hr]
  have e3 : Heap.readBytes (h ++ [h.readBytes tx.DataRef] ++ [h.readBytes tx.VRef] ++
      [h.readBytes tx.RRef]) tx.SRef = h.readBytes tx.SRef := by
    rw [readBytes_append_left _ _ tx.SRef (by simp; omega),
      readBytes_append_left _ _ tx.SRef (by simp; omega),
      readBytes_append_left h _ tx.SRef hs]
  simp only [e1, e2, e3, List.length_append, List.length_cons, List.length_nil]
  refine ⟨?_, ?_⟩ <;> first | rfl | trivial

theorem GetChainID_eq (tx : DynamicFeeTx) : tx.GetChainID = tx.ChainID := by
  unfold DynamicFeeTx.GetChainID
  cases tx.ChainID <;> rfl

theorem GetValue_eq (tx : DynamicFeeTx) : tx.GetValue = tx.Amount := by
  unfold DynamicFeeTx.GetValue
  cases tx.Amount <;> rfl

theorem GetGasFeeCap_eq (tx : DynamicFeeTx) : tx.GetGasFeeCap = tx.GasFeeCap := by
  unfold DynamicFeeTx.GetGasFeeCap
  cases tx.GasFeeCap <;> rfl

theorem GetGasTipCap_eq (tx : DynamicFeeTx) : tx.GetGasTipCap = tx.GasTipCap := by
  unfold DynamicFeeTx.GetGasTipCap
  cases tx.GasTipCap <;> rfl

theorem GetAccessList_eq (tx : DynamicFeeTx) : tx.GetAccessList = tx.Accesses := by
  unfold DynamicFeeTx.GetAccessList accessListToEth
  cases tx.Accesses <;> rfl

theorem AsEthereumData_eq (tx : DynamicFeeTx) :
    tx.AsEthereumData =
      { chainId := tx.ChainID
        nonce := tx.Nonce
        gasTipCap := tx.GasTipCap
        gasFeeCap := tx.GasFeeCap
        gas := tx.GasLimit
        toAddr := if tx.To = "" then none else some (hexToAddress tx.To)
        value := tx.Amount
        data := tx.Data
        accessList := tx.Accesses
        v := if 0 < tx.V.length then some (bigIntSetBytes tx.V) else none
        r := if 0 < tx.R.length then some (bigIntSetBytes tx.R) else none
        s := if 0 < tx.S.length then some (bigIntSetBytes tx.S) else none } := by
  unfold DynamicFeeTx.AsEthereumData DynamicFeeTx.GetRawSignatureValues rawSignatureValues
    DynamicFeeTx.GetTo DynamicFeeTx.GetData DynamicFeeTx.GetNonce DynamicFeeTx.GetGas
  simp [GetChainID_eq, GetValue_eq, GetGasFeeCap_eq, GetGasTipCap_eq, GetAccessList_eq]

theorem sig_roundtrip (o : Option Int) :
    (if 0 < (o.elim ([] : Bytes) bigIntBytes).length then
        some (bigIntSetBytes (o.elim ([] : Bytes) bigIntBytes)) else none).elim
      ([] : Bytes) bigIntBytes = o.elim ([] : Bytes) bigIntBytes := by
  cases o with
  | none => rfl
  | some x =>
    by_cases hx : x.natAbs = 0
    · simp [bigIntBytes, natToBEBytes, hx]
    · have hne : bigIntBytes x ≠ [] := by
        simp [bigIntBytes, natToBEBytes_eq_nil_iff, hx]
      have hlen : 0 < (bigIntBytes x).length := List.length_pos.mpr hne
      simp [hlen, bigIntBytes_bigIntSetBytes_bigIntBytes]

theorem to_roundtrip (o : Option EthAddress) :
    (if o.elim "" addressToHex = "" then none
      else some (hexToAddress (o.elim "" addressToHex))).elim "" addressToHex =
      o.elim "" addressToHex := by
  cases o with
  | none => simp
  | some a => simp [addressToHex_ne_empty a, hexToAddress_addressToHex]

theorem accessList_map_id (o : Option AccessList) : o.map accessListFromEth = o := by
  cases o <;> rfl

theorem GetGasPrice_eq (tx : DynamicFeeTx) : tx.GetGasPrice = tx.GasFeeCap :=
  GetGasFeeCap_eq tx

/-- C1: for every DynamicFeeTx produced by newDynamicFeeTx from an
external transaction object, converting it with AsEthereumData and
re-converting the result with newDynamicFeeTx reproduces the transaction
field-for-field (the byte-sequence fields Data, V, R, S are lists, so
equality is content equality). -/
theorem newDynamicFeeTx_AsEthereumData_roundtrip (e : EthTx) :
    newDynamicFeeTx (newDynamicFeeTx e).AsEthereumData = newDynamicFeeTx e := by
  rw [newDynamicFeeTx_eq e, AsEthereumData_eq, newDynamicFeeTx_eq]
  simp only [sig_roundtrip, to_roundtrip, accessList_map_id]

/-- C2: Validate applies exactly the five checks in source order with the
first failure winning (equality with the spec-side cascade), and returns
no error exactly when all five checks pass. -/
theorem Validate_five_checks (tx : DynamicFeeTx) :
    tx.Validate = validateSpec tx ∧
      (tx.Validate = none ↔
        tx.GetGasPrice ≠ none ∧ (∀ p, tx.GetGasPrice = some p → 0 ≤ p) ∧
        (∀ a, tx.GetValue = some a → 0 ≤ a) ∧
        (tx.To ≠ "" → ValidateAddress tx.To = none) ∧
        tx.GetChainID ≠ none) :=
  ⟨Validate_eq_validateSpec tx, Validate_none_iff tx⟩

/-- C3: Fee is the gas price (fee cap) times the gas limit in exact
integer arithmetic, and Cost is Fee plus the amount with a nil amount
treated as zero, so that a nil amount gives Cost equal to Fee. -/
theorem Fee_Cost_arithmetic (tx : DynamicFeeTx) (p : Int) (h : tx.GasFeeCap = some p) :
    tx.Fee = some (p * (tx.GasLimit : Int)) ∧
    tx.Cost = some (p * (tx.GasLimit : Int) + tx.Amount.getD 0) ∧
    (tx.Amount = none → tx.Cost = tx.Fee) := by
  have hf : tx.Fee = some (p * (tx.GasLimit : Int)) := by
    unfold DynamicFeeTx.Fee feeCalc DynamicFeeTx.GetGas
    rw [GetGasPrice_eq, h]
    rfl
  refine ⟨hf, ?_, ?_⟩
  · unfold DynamicFeeTx.Cost costCalc
    rw [GetValue_eq, hf]
    cases tx.Amount <;> simp
  · intro ha
    unfold DynamicFeeTx.Cost costCalc
    rw [GetValue_eq, ha]

def dftFee : DynamicFeeTx := { GasFeeCap := some 100, GasLimit := 21000, Amount := some 1000 }

theorem Fee_Cost_arithmetic_witness :
    dftFee.Fee = some 2100000 ∧ dftFee.Cost = some 2101000 := by
  have h := Fee_Cost_arithmetic dftFee 100 rfl
  refine ⟨?_, ?_⟩
  · rw [h.1]
    norm_num [dftFee]
  · rw [h.2.1]
    norm_num [dftFee]

/-- C4: SetSignatureValues writes each of V, R, S and ChainID only when
the corresponding argument is non-nil and leaves it untouched otherwise;
consequently a signature-only call followed by a chain-ID-only call
leaves both the signature of the first call and the chain ID of the
second in place. -/
theorem SetSignatureValues_partial_update (tx : DynamicFeeTx)
    (chainID v r s : Option Int) (w x y c : Int) :
    ((tx.SetSignatureValues chainID v r s).V = v.elim tx.V bigIntBytes ∧
     (tx.SetSignatureValues chainID v r s).R = r.elim tx.R bigIntBytes ∧
     (tx.SetSignatureValues chainID v r s).S = s.elim tx.S bigIntBytes ∧
     (tx.SetSignatureValues chainID v r s).ChainID = chainID.elim tx.ChainID some) ∧
    (((tx.SetSignatureValues none (some w) (some x) (some y)).SetSignatureValues
        (some c) none none none).V = bigIntBytes w ∧
     ((tx.SetSignatureValues none (some w) (some x) (some y)).SetSignatureValues
        (some c) none none none).R = bigIntBytes x ∧
     ((tx.SetSignatureValues none (some w) (some x) (some y)).SetSignatureValues
        (some c) none none none).S = bigIntBytes y ∧
     ((tx.SetSignatureValues none (some w) (some x) (some y)).SetSignatureValues
        (some c) none none none).ChainID = some c) := by
  simp [SetSignatureValues_eq, Option.elim]

/-- C6: newDynamicFeeTx preserves absence: an absent recipient gives the
empty To string and an absent GetTo, and an absent value, fee cap, tip
cap or access list gives the corresponding nil field rather than zero. -/
theorem newDynamicFeeTx_absence (e : EthTx) :
    (e.toAddr = none → (newDynamicFeeTx e).To = "" ∧ (newDynamicFeeTx e).GetTo = none) ∧
    (e.value = none → (newDynamicFeeTx e).Amount = none) ∧
    (e.gasFeeCap = none → (newDynamicFeeTx e).GasFeeCap = none) ∧
    (e.gasTipCap = none → (newDynamicFeeTx e).GasTipCap = none) ∧
    (e.accessList = none → (newDynamicFeeTx e).Accesses = none) := by
  rw [newDynamicFeeTx_eq]
  refine ⟨fun h => ?_, fun h => ?_, fun h => ?_, fun h => ?_, fun h => ?_⟩ <;>
    simp [h, DynamicFeeTx.GetTo]

def ethTxEmpty : EthTx :=
  { nonce := 0, data := [], gas := 0, toAddr := none, value := none, gasFeeCap := none,
    gasTipCap := none, accessList := none, chainId := none, v := none, r := none, s := none }

theorem newDynamicFeeTx_absence_witness :
    (newDynamicFeeTx ethTxEmpty).To = "" ∧ (newDynamicFeeTx ethTxEmpty).GetTo = none ∧
    (newDynamicFeeTx ethTxEmpty).Amount = none ∧
    (newDynamicFeeTx ethTxEmpty).GasFeeCap = none ∧
    (newDynamicFeeTx ethTxEmpty).GasTipCap = none ∧
    (newDynamicFeeTx ethTxEmpty).Accesses = none := by
  have h := newDynamicFeeTx_absence ethTxEmpty
  exact ⟨(h.1 rfl).1, (h.1 rfl).2, h.2.1 rfl, h.2.2.1 rfl, h.2.2.2.1 rfl, h.2.2.2.2 rfl⟩

/-- C7: GetGasPrice returns exactly the same value as GetGasFeeCap on
every transaction state (in particular both are nil when the fee cap
field is nil). -/
theorem GetGasPrice_alias_GetGasFeeCap (tx : DynamicFeeTx) :
    tx.GetGasPrice = tx.GetGasFeeCap := rfl

/-- C8: NewEmptyTxConfig stores the given block hash and sets the tx
hash to the all-zero hash and both indices to zero, for every block
hash. -/
theorem NewEmptyTxConfig_spec (bhash : EthHash) :
    (NewEmptyTxConfig bhash).BlockHash = bhash ∧ (NewEmptyTxConfig bhash).TxHash = 0 ∧
    (NewEmptyTxConfig bhash).TxIndex = 0 ∧ (NewEmptyTxConfig bhash).LogIndex = 0 :=
  ⟨rfl, rfl, rfl, rfl⟩

/-- C9: Validate never reads GasTipCap: whenever the fee cap is present
and non-negative, the amount absent or non-negative, To empty or a valid
hex address, and the chain ID present, Validate succeeds for every value
of the tip cap, including a negative one. -/
theorem Validate_ignores_GasTipCap (tx : DynamicFeeTx) (tip : Option Int)
    (h1 : ∃ p, tx.GasFeeCap = some p ∧ 0 ≤ p)
    (h2 : ∀ a, tx.Amount = some a → 0 ≤ a)
    (h3 : tx.To ≠ "" → isHexAddress tx.To = true)
    (h4 : tx.ChainID ≠ none) :
    ({ tx with GasTipCap := tip } : DynamicFeeTx).Validate = none := by
  have hframe : ({ tx with GasTipCap := tip } : DynamicFeeTx).Validate = tx.Validate := rfl
  rw [hframe, Validate_none_iff]
  obtain ⟨p, hp, hp0⟩ := h1
  refine ⟨?_, ?_, ?_, ?_, ?_⟩
  · rw [GetGasPrice_eq, hp]
    simp
  · intro q hq
    rw [GetGasPrice_eq, hp] at hq
    cases hq
    exact hp0
  · intro a ha
    rw [GetValue_eq] at ha
    exact h2 a ha
  · intro hto
    unfold ValidateAddress
    simp [h3 hto]
  · rw [GetChainID_eq]
    exact h4

def dftTip : DynamicFeeTx := { GasFeeCap := some 100, ChainID := some 9000 }

theorem Validate_ignores_GasTipCap_witness :
    ({ dftTip with GasTipCap := some (-7) } : DynamicFeeTx).Validate = none := by
  exact Validate_ignores_GasTipCap dftTip (some (-7))
    ⟨100, rfl, by norm_num⟩
    (fun a ha => by cases ha)
    (fun hto => absurd rfl hto)
    (by simp [dftTip])

/-- C10: GetTo is total: it returns none exactly when To is empty, and
on every non-empty To string, malformed or not, it returns the hex
coercion of the string without error, which AsEthereumData then reports
as the recipient of the external object. -/
theorem GetTo_total_coercion (tx : DynamicFeeTx) :
    (tx.GetTo = none ↔ tx.To = "") ∧
    (tx.To ≠ "" → tx.GetTo = some (hexToAddress tx.To) ∧
      (tx.AsEthereumData).toAddr = some (hexToAddress tx.To)) := by
  constructor
  · unfold DynamicFeeTx.GetTo
    by_cases h : tx.To = "" <;> simp [h]
  · intro h
    rw [AsEthereumData_eq]
    unfold DynamicFeeTx.GetTo
    simp [h]

def dftBadTo : DynamicFeeTx := { To := "not-an-address" }

theorem GetTo_total_coercion_witness :
    dftBadTo.GetTo = some (hexToAddress "not-an-address") ∧
    (dftBadTo.AsEthereumData).toAddr = some (hexToAddress "not-an-address") := by
  exact (GetTo_total_coercion dftBadTo).2 (by decide)

/-- C5: Copy returns a clone field-for-field equal to the original whose
byte-sequence fields (Data, V, R, S) live in fresh backing storage: in
the heap model, mutating any byte of a clone buffer never alters any of
the original's buffers, and vice versa. -/
theorem Copy_deep_clone (h : Heap) (tx : DynamicFeeTxRef)
    (hwf : tx.DataRef < h.length ∧ tx.VRef < h.length ∧
           tx.RRef < h.length ∧ tx.SRef < h.length) :
    ((tx.Copy h).2.ChainID = tx.ChainID ∧ (tx.Copy h).2.Nonce = tx.Nonce ∧
     (tx.Copy h).2.GasTipCap = tx.GasTipCap ∧ (tx.Copy h).2.GasFeeCap = tx.GasFeeCap ∧
     (tx.Copy h).2.GasLimit = tx.GasLimit ∧ (tx.Copy h).2.To = tx.To ∧
     (tx.Copy h).2.Amount = tx.Amount ∧ (tx.Copy h).2.Accesses = tx.Accesses) ∧
    ((tx.Copy h).1.readBytes (tx.Copy h).2.DataRef = h.readBytes tx.DataRef ∧
     (tx.Copy h).1.readBytes (tx.Copy h).2.VRef = h.readBytes tx.VRef ∧
     (tx.Copy h).1.readBytes (tx.Copy h).2.RRef = h.readBytes tx.RRef ∧
     (tx.Copy h).1.readBytes (tx.Copy h).2.SRef = h.readBytes tx.SRef) ∧
    (∀ p q i b,
      (p = (tx.Copy h).2.DataRef ∨ p = (tx.Copy h).2.VRef ∨
       p = (tx.Copy h).2.RRef ∨ p = (tx.Copy h).2.SRef) →
      (q = tx.DataRef ∨ q = tx.VRef ∨ q = tx.RRef ∨ q = tx.SRef) →
      ((tx.Copy h).1.writeByte p i b).readBytes q = (tx.Copy h).1.readBytes q ∧
      ((tx.Copy h).1.writeByte q i b).readBytes p = (tx.Copy h).1.readBytes p) := by
  obtain ⟨hd, hv, hr, hs⟩ := hwf
  obtain ⟨hheap, hstruct⟩ := copy_spec h tx hd hv hr hs
  refine ⟨?_, ?_, ?_⟩
  · rw [hstruct]
    exact ⟨rfl, rfl, rfl, rfl, rfl, rfl, rfl, rfl⟩
  · rw [hheap, hstruct]
    refine ⟨?_, ?_, ?_, ?_⟩
    · show Heap.readBytes _ h.length = _
      rw [readBytes_append_left _ _ _ (by simp),
        readBytes_append_left _ _ _ (by simp),
        readBytes_append_left _ _ _ (by simp)]
      exact readBytes_concat h _
    · show Heap.readBytes _ (h.length + 1) = _
      rw [readBytes_append_left _ _ _ (by simp),
        readBytes_append_left _ _ _ (by simp)]
      simpa using readBytes_concat (h ++ [h.readBytes tx.DataRef]) (h.readBytes tx.VRef)
    · show Heap.readBytes _ (h.length + 2) = _
      rw [readBytes_append_left _ _ _ (by simp)]
      simpa using readBytes_concat (h ++ [h.readBytes tx.DataRef] ++ [h.readBytes tx.VRef])
        (h.readBytes tx.RRef)
    · show Heap.readBytes _ (h.length + 3) = _
      simpa using readBytes_concat
        (h ++ [h.readBytes tx.DataRef] ++ [h.readBytes tx.VRef] ++ [h.readBytes tx.RRef])
        (h.readBytes tx.SRef)
  · intro p q i b hp hq
    have hpge : h.length ≤ p := by
      rw [hstruct] at hp
      rcases hp with hp1 | hp1 | hp1 | hp1 <;> simp only at hp1 <;> omega
    have hqlt : q < h.length := by
      rcases hq with hq1 | hq1 | hq1 | hq1 <;> omega
    have hpq : p ≠ q := by omega
    exact ⟨readBytes_writeByte_ne _ p q i b hpq, readBytes_writeByte_ne _ q p i b (Ne.symm hpq)⟩

def heap0 : Heap := [[1, 2], [3], [4], [5]]

def txRef0 : DynamicFeeTxRef :=
  { ChainID := none, Nonce := 0, GasTipCap := none, GasFeeCap := none, GasLimit := 0,
    To := "", Amount := none, DataRef := 0, Accesses := none, VRef := 1, RRef := 2, SRef := 3 }

theorem Copy_deep_clone_witness :
    ((txRef0.Copy heap0).1.writeByte (txRef0.Copy heap0).2.DataRef 0 9).readBytes
        txRef0.DataRef = [1, 2] := by
  have h := Copy_deep_clone heap0 txRef0 (by decide)
  have h2 := (h.2.2 (txRef0.Copy heap0).2.DataRef txRef0.DataRef 0 9 (Or.inl rfl)
    (Or.inl rfl)).1
  rw [h2]
  decide

end Ethermint

